import Mathlib

/-!
Verification of the data-cleaning pipeline and job orchestration of the
despliegue backend (src/backend_new/app).  The tabular data model follows
pandas semantics: a frame is an ordered list of named columns, each column
either numeric (int64/float64, modelled as exact rationals) or
categorical (strings); missing values (NaN) are `none`.
-/

namespace Despliegue

/-- A cell of a tabular dataset: a possibly-null numeric or string value. -/
inductive Cell where
  | cnum (v : Option ℚ)
  | cstr (v : Option String)
deriving DecidableEq, Repr

/-- One column of the dataset.  The pandas dtype decides which branch of the
cleaning code runs on a column, so a column is either numeric or
categorical. -/
inductive ColData where
  | num (cells : List (Option ℚ))
  | cat (cells : List (Option String))
deriving DecidableEq, Repr

/-- Number of rows stored in a column. -/
def ColData.length : ColData → Nat
  | .num cs => cs.length
  | .cat cs => cs.length

/-- The cell at row index i (out of range reads as null; well-formed frames
never read out of range). -/
def ColData.cellAt : ColData → Nat → Cell
  | .num cs, i => Cell.cnum (cs.getD i none)
  | .cat cs, i => Cell.cstr (cs.getD i none)

/-- Null mask of a column: true at the positions holding a null. -/
def ColData.nullMask : ColData → List Bool
  | .num cs => cs.map (fun v => v.isNone)
  | .cat cs => cs.map (fun v => v.isNone)

/-- A column is null-clean when it is entirely null or entirely non-null;
after the imputation stage every column is null-clean, which is what makes
a second imputation run a no-op. -/
def ColData.nullClean : ColData → Prop
  | .num cs => (∀ v ∈ cs, v = none) ∨ (∀ v ∈ cs, v ≠ none)
  | .cat cs => (∀ v ∈ cs, v = none) ∨ (∀ v ∈ cs, v ≠ none)

/-- A tabular dataset: ordered named columns. -/
structure Frame where
  cols : List (String × ColData)
deriving DecidableEq, Repr

/-- Row count of a frame (positional alignment across columns). -/
def Frame.nrows (f : Frame) : Nat :=
  match f.cols with
  | [] => 0
  | c :: _ => c.2.length

/-- Well-formedness: every column has the frame's row count. -/
def Frame.wf (f : Frame) : Prop := ∀ c ∈ f.cols, c.2.length = f.nrows

/-- Keep the entries of a list whose position carries true in the mask
(pandas row selection). -/
def maskFilter {α : Type} : List Bool → List α → List α
  | _, [] => []
  | [], _ :: _ => []
  | true :: ks, x :: xs => x :: maskFilter ks xs
  | false :: ks, x :: xs => maskFilter ks xs

/-- Row selection on one column. -/
def ColData.filterRows (c : ColData) (keep : List Bool) : ColData :=
  match c with
  | .num cs => .num (maskFilter keep cs)
  | .cat cs => .cat (maskFilter keep cs)

/-- Arithmetic mean of the non-null values (the caller passes the non-null
values); the NaN a pandas mean yields on an all-null series is `none`. -/
def meanQ (vals : List ℚ) : Option ℚ :=
  if vals.isEmpty then none else some (vals.sum / (vals.length : ℚ))

/-- Number of occurrences of a value. -/
def countOcc (vals : List String) (v : String) : Nat :=
  (vals.filter (fun w => w = v)).length

/-- First element of `Series.mode()`: pandas returns the values of maximal
frequency sorted ascending, so element 0 is the smallest such value;
`none` when the series has no non-null values. -/
def modeStr (vals : List String) : Option String :=
  match vals with
  | [] => none
  | v₀ :: _ =>
    let maxC := (vals.map (fun v => countOcc vals v)).foldl max 0
    let cands := vals.filter (fun v => countOcc vals v = maxC)
    match cands with
    | [] => some v₀
    | c :: cs => some (cs.foldl (fun a b => if b < a then b else a) c)

/-- Null imputation for one column (body of the per-column loop in
clean_data): numeric columns fill nulls with the mean, categorical ones
with the mode; a column whose statistic is undefined (all values null) is
left unchanged.  Returns the new column, the number of nulls filled, and
whether a fill happened (one progress emission at anchor 30 per column
that fills). -/
def fillColumn : ColData → ColData × Nat × Bool
  | .num cs =>
    let nulls := (cs.filter (fun v => v.isNone)).length
    if 0 < nulls then
      match meanQ (cs.filterMap id) with
      | some m => (.num (cs.map (fun v => some (v.getD m))), nulls, true)
      | none => (.num cs, 0, false)
    else (.num cs, 0, false)
  | .cat cs =>
    let nulls := (cs.filter (fun v => v.isNone)).length
    if 0 < nulls then
      match modeStr (cs.filterMap id) with
      | some m => (.cat (cs.map (fun v => some (v.getD m))), nulls, true)
      | none => (.cat cs, 0, false)
    else (.cat cs, 0, false)

/-- The null-imputation loop over all columns.  Returns the new columns, the
total number of nulls filled, and the number of columns that filled. -/
def fillStage (cols : List (String × ColData)) : List (String × ColData) × Nat × Nat :=
  match cols with
  | [] => ([], 0, 0)
  | c :: rest =>
    let r := fillColumn c.2
    let rr := fillStage rest
    ((c.1, r.1) :: rr.1, r.2.1 + rr.2.1, (if r.2.2 then 1 else 0) + rr.2.2)

/-- The row at index i, for row-wise comparisons. -/
def Frame.rowAt (f : Frame) (i : Nat) : List Cell :=
  f.cols.map (fun c => c.2.cellAt i)

/-- `DataFrame.duplicated()` flags: row i is flagged exactly when some
earlier row equals it (first occurrence kept unflagged); pandas compares
NaN equal to NaN here, as `Option` equality does. -/
def dupFlags (f : Frame) : List Bool :=
  (List.range f.nrows).map (fun i =>
    (List.range i).any (fun j => decide (f.rowAt j = f.rowAt i)))

/-- `duplicated().sum()`. -/
def dupCount (f : Frame) : Nat := (dupFlags f).count true

/-- Mask of rows whose every cell is null. -/
def Frame.allNullMask (f : Frame) : List Bool :=
  match f.cols.map (fun c => c.2.nullMask) with
  | [] => List.replicate f.nrows true
  | m :: ms => ms.foldl (fun acc mk => List.zipWith (fun a b => a && b) acc mk) m

/-- `dropna(how = all)`: remove the rows whose every cell is null. -/
def dropnaAll (f : Frame) : Frame :=
  let keep := f.allNullMask.map (fun b => !b)
  ⟨f.cols.map (fun c => (c.1, c.2.filterRows keep))⟩

/-- `drop_duplicates()`: keep the first occurrence of each row. -/
def dropDuplicates (f : Frame) : Frame :=
  let keep := (dupFlags f).map (fun b => !b)
  ⟨f.cols.map (fun c => (c.1, c.2.filterRows keep))⟩

/-- Linear interpolation at fractional position hq into the sorted list of
values, as the default numpy/pandas quantile interpolation does. -/
def interpAt (s : List ℚ) (hq : ℚ) : ℚ :=
  let i := (⌊hq⌋).toNat
  let lo := s.getD i 0
  let hi := s.getD (i + 1) lo
  lo + (hq - (i : ℚ)) * (hi - lo)

/-- `Series.quantile(q)` with linear interpolation (nulls are dropped by
the caller; pandas returns NaN on an empty series, modelled as `none`). -/
def quantileQ (vals : List ℚ) (q : ℚ) : Option ℚ :=
  if vals.isEmpty then none
  else some (interpAt (List.insertionSort (· ≤ ·) vals) (q * ((vals.length : ℚ) - 1)))

/-- Outlier clamping for one numeric column (body of the outlier loop):
quartiles and IQR are computed on the column's current values, values
outside [Q1 - 1.5 IQR, Q3 + 1.5 IQR] are counted and replaced by the
violated bound (lower bound assigned first, then upper, as in the code);
the assignment is guarded by outliers_count > 0.  On an all-null column
the quantiles are NaN and every comparison is false, so nothing changes. -/
def clampNum (cs : List (Option ℚ)) : List (Option ℚ) × Nat :=
  let vals := cs.filterMap id
  match quantileQ vals (1/4), quantileQ vals (3/4) with
  | some q1, some q3 =>
    let iqr := q3 - q1
    let lower := q1 - 1.5 * iqr
    let upper := q3 + 1.5 * iqr
    let outCount := (vals.filter (fun v => decide (v < lower) || decide (upper < v))).length
    if 0 < outCount then
      (cs.map (Option.map (fun v =>
        let v₁ := if v < lower then lower else v
        if upper < v₁ then upper else v₁)), outCount)
    else (cs, 0)
  | _, _ => (cs, 0)

/-- The outlier loop over the numeric columns. -/
def clampStage (cols : List (String × ColData)) : List (String × ColData) × Nat :=
  match cols with
  | [] => ([], 0)
  | c :: rest =>
    let rr := clampStage rest
    match c.2 with
    | .num cs =>
      let r := clampNum cs
      ((c.1, .num r.1) :: rr.1, r.2 + rr.2)
    | .cat cs => ((c.1, .cat cs) :: rr.1, rr.2)

/-- Sample variance (ddof = 1), defined for at least two values. -/
def sampleVar (vals : List ℚ) : Option ℚ :=
  match meanQ vals with
  | none => none
  | some m =>
    if 2 ≤ vals.length then
      some (((vals.map (fun v => (v - m) ^ 2)).sum) / ((vals.length : ℚ) - 1))
    else none

/-- `Series.std() > 0`: the sample standard deviation is positive exactly
when the sample variance is positive (std is its square root), and std is
NaN — so the comparison is false — with fewer than two values. -/
def stdPos (vals : List ℚ) : Bool :=
  match sampleVar vals with
  | some v => decide (0 < v)
  | none => false

/-- `Series.min()` over the non-null values. -/
def listMin (vals : List ℚ) : Option ℚ :=
  match vals with
  | [] => none
  | v :: vs => some (vs.foldl min v)

/-- `Series.max()` over the non-null values. -/
def listMax (vals : List ℚ) : Option ℚ :=
  match vals with
  | [] => none
  | v :: vs => some (vs.foldl max v)

/-- Min-max normalization of one numeric column (body of the normalization
loop): rescale to [0,1] when the standard deviation is positive and max
differs from min.  The Bool reports whether the column was normalized
(its name is then recorded in normalized_columns). -/
def normNum (cs : List (Option ℚ)) : List (Option ℚ) × Bool :=
  let vals := cs.filterMap id
  if stdPos vals then
    match listMin vals, listMax vals with
    | some mn, some mx =>
      if mx ≠ mn then (cs.map (Option.map (fun v => (v - mn) / (mx - mn))), true)
      else (cs, false)
    | _, _ => (cs, false)
  else (cs, false)

/-- The normalization loop over the numeric columns; also collects the
names of the columns actually normalized, in column order. -/
def normalizeStage (cols : List (String × ColData)) : List (String × ColData) × List String :=
  match cols with
  | [] => ([], [])
  | c :: rest =>
    let rr := normalizeStage rest
    match c.2 with
    | .num cs =>
      let r := normNum cs
      ((c.1, .num r.1) :: rr.1, if r.2 then c.1 :: rr.2 else rr.2)
    | .cat cs => ((c.1, .cat cs) :: rr.1, rr.2)

/-- The cleaning report built at the end of clean_data (the bounded row
preview is not modelled). -/
structure CleaningReport where
  null_values_filled : Nat
  duplicates_removed : Nat
  nulls_removed : Nat
  outliers_removed : Nat
  normalized_columns : List String
  final_rows : Nat
  rows_removed : Nat
  original_rows : Nat
  cleaned_rows : Nat
deriving DecidableEq, Repr

/-- `DataProcessor.clean_data`: the full cleaning pipeline on a loaded
frame.  Returns the cleaned frame, the cleaning report, and the list of
progress percentages emitted through the progress callback in emission
order (the callback also carries messages and metrics payloads, which no
claim depends on; the per-column anchor-30 emissions all carry value 30
and appear between the 25 and 40 anchors, in column order). -/
def clean_data (f : Frame) : Frame × CleaningReport × List ℚ :=
  let original_rows := f.nrows
  let fr := fillStage f.cols
  let f₁ : Frame := ⟨fr.1⟩
  let rows_before := f₁.nrows
  let f₂ := dropnaAll f₁
  let nulls_removed := rows_before - f₂.nrows
  let dup_before := dupCount f₂
  let f₃ := dropDuplicates f₂
  let dup_after := dupCount f₃
  let cr := clampStage f₃.cols
  let nr := normalizeStage cr.1
  let f₅ : Frame := ⟨nr.1⟩
  let cleaned_rows := f₅.nrows
  let report : CleaningReport :=
    { null_values_filled := fr.2.1
      duplicates_removed := dup_before - dup_after
      nulls_removed := nulls_removed
      outliers_removed := cr.2
      normalized_columns := nr.2
      final_rows := cleaned_rows
      rows_removed := original_rows - cleaned_rows
      original_rows := original_rows
      cleaned_rows := cleaned_rows }
  (f₅, report,
    [10, 25] ++ List.replicate fr.2.2 (30 : ℚ) ++ [40, 50, 60, 70, 80, 85, 95, 100])

/-!  Progress sink: SupabaseRealtimeService.  Each operation wraps its
database write in try/except: an exception from the write is logged and
swallowed and the method returns False; on success it returns True.  The
`Except` result type records whether the method itself raises to its
caller: `Except.ok b` is a normal return of the boolean b. -/

/-- Outcome of the underlying `db.execute_update` / `db.execute_insert`
statement for this call: it either succeeds or raises, which we determine
by the flag `dbOk`. -/
def db_execute_update (dbOk : Bool) : Except String Unit :=
  if dbOk then Except.ok () else Except.error ("database error")

/-- `update_job_progress(job_id, progress, message, metrics)`. -/
def update_job_progress (dbOk : Bool) (progress : ℚ) (message : String) :
    Except String Bool :=
  match db_execute_update dbOk with
  | Except.ok _ => Except.ok true
  | Except.error _ => Except.ok false

/-- `update_job(job_id, progress, message, metrics, estado)`: like
update_job_progress but optionally also writes the state column. -/
def update_job (dbOk : Bool) (progress : ℚ) (message : String)
    (estado : Option String) : Except String Bool :=
  match db_execute_update dbOk with
  | Except.ok _ => Except.ok true
  | Except.error _ => Except.ok false

/-- `complete_job(job_id, message, metrics)`: writes estado = completado
and progreso = 100. -/
def complete_job (dbOk : Bool) (message : String) : Except String Bool :=
  match db_execute_update dbOk with
  | Except.ok _ => Except.ok true
  | Except.error _ => Except.ok false

/-- The message `fail_job` stores: the error text prefixed for operator
visibility. -/
def storedFailMessage (msg : String) : String := "Error: " ++ msg

/-- `fail_job(job_id, error_message)`: writes estado = fallido and the
prefixed message. -/
def fail_job (dbOk : Bool) (error_message : String) : Except String Bool :=
  match db_execute_update dbOk with
  | Except.ok _ => Except.ok true
  | Except.error _ => Except.ok false

/-- The row `create_pipeline_job` (app/api/routes/data.py) inserts into
pipeline_jobs at job creation. -/
structure NewJobRow where
  estado : String
  progreso : ℚ
  mensaje_actual : String
deriving DecidableEq, Repr

/-- `create_pipeline_job(datos_cargados_id, tipo_tarea)`: the creation
path used by the cleaning endpoint. -/
def create_pipeline_job : NewJobRow :=
  { estado := "en_progreso", progreso := 0, mensaje_actual := "Iniciando tarea..." }

/-- `SupabaseRealtimeService.create_job(datos_cargados_id, tipo_tarea)`:
the job-state-store creation operation. -/
def create_job : NewJobRow :=
  { estado := "pendiente", progreso := 0, mensaje_actual := "Job creado, esperando inicio..." }

/-!  Job orchestrator: AsyncDataProcessor.process_cleaning_job.  One run is
determinized by the outcomes of its external interactions (database
lookup, filesystem, persistence writes) and the generated random names;
the run is modelled as the list of side effects it performs, in order. -/

/-- The file record `_get_file_info` resolves (nombre_archivo; the local
path existence is carried separately by `local_exists`). -/
structure FileInfo where
  nombre_archivo : String
deriving DecidableEq, Repr

/-- One observable side effect of a cleaning-job run:
a pipeline_jobs progress/state write (`upd`, estado `none` for
update_job_progress which leaves the state column untouched), the
terminal complete/fail writes, a cleaned artifact written to disk, or a
datos_limpiados record insert. -/
inductive Event where
  | upd (progress : ℚ) (estado : Option String)
  | completeJob (cleaned_filename : String) (cleaned_id : String)
  | failJob (stored_message : String)
  | saveArtifact (filename : String)
  | insertCleanedRecord (cleaned_id : String)
deriving DecidableEq, Repr

/-- Determinization of one `process_cleaning_job` run: the database lookup
result, filesystem and persistence outcomes, the loaded frame, and the
generated random names. -/
structure RunInput where
  file_info : Option FileInfo
  local_exists : Bool
  load_ok : Bool
  frame : Frame
  save_ok : Bool
  register_ok : Bool
  suffix : String
  new_uuid : String

/-- The value `process_cleaning_job` returns: an error dictionary or the
success payload (cleaned_id, cleaning report, cleaned file name). -/
inductive RunRet where
  | errorPayload (msg : String)
  | success (cleaned_id : String) (report : CleaningReport) (cleaned_file : String)
deriving DecidableEq, Repr

/-- `_save_cleaned_file`: on success returns the generated unique filename
and its storage path; any exception is caught inside and empty strings
are returned instead of propagating. -/
def save_cleaned_file (save_ok : Bool) (original_filename suffix : String) :
    String × String :=
  if save_ok then
    let cleaned_filename :=
      "cleaned_" ++ (original_filename.replace (".csv") ("")) ++ "_" ++ suffix ++ ".csv"
    (cleaned_filename, "uploads/cleaned/" ++ cleaned_filename)
  else ("", "")

/-- `_register_cleaned_data`: on success inserts the datos_limpiados row
and returns its fresh id; any exception is caught inside and the empty
string is returned instead of propagating. -/
def register_cleaned_data (register_ok : Bool) (new_uuid : String) : String :=
  if register_ok then new_uuid else ""

/-- Message of the exception `load_csv_from_path` raises when loading
fails (reaching the top-level handler of process_cleaning_job). -/
def loadErrorMessage : String := "Error cargando CSV desde ruta"

/-- `AsyncDataProcessor.process_cleaning_job(file_id, job_id)`: drives one
cleaning job end to end.  Every failure path goes through fail_job and
returns an error payload; the engine's progress callback rescales engine
progress p to 10 + p * 0.8 and writes state en_progreso; the orchestrator
itself writes its fixed anchors 5, 10, 85, 90 and completes at 100. -/
def process_cleaning_job (inp : RunInput) : List Event × RunRet :=
  match inp.file_info with
  | none =>
    ([Event.failJob (storedFailMessage ("Archivo no encontrado"))],
     RunRet.errorPayload ("Archivo no encontrado"))
  | some fi =>
    let e₁ := Event.upd 5 (some ("en_progreso"))
    if ¬ inp.local_exists then
      ([e₁, Event.failJob (storedFailMessage ("Archivo local no encontrado"))],
       RunRet.errorPayload ("Archivo local no encontrado"))
    else
      let e₂ := Event.upd 10 none
      if ¬ inp.load_ok then
        ([e₁, e₂, Event.failJob (storedFailMessage loadErrorMessage)],
         RunRet.errorPayload loadErrorMessage)
      else
        let res := clean_data inp.frame
        let engineEvents :=
          res.2.2.map (fun p => Event.upd (10 + p * 0.8) (some ("en_progreso")))
        let saved := save_cleaned_file inp.save_ok fi.nombre_archivo inp.suffix
        let artifactEvents := if inp.save_ok then [Event.saveArtifact saved.1] else []
        let cleaned_id := register_cleaned_data inp.register_ok inp.new_uuid
        let recordEvents :=
          if inp.register_ok then [Event.insertCleanedRecord cleaned_id] else []
        (([e₁, e₂] ++ engineEvents ++ [Event.upd 85 none] ++ artifactEvents
            ++ [Event.upd 90 none] ++ recordEvents
            ++ [Event.completeJob saved.1 cleaned_id]),
         RunRet.success cleaned_id res.2.1 saved.1)

/-- The progress value a run event persists, if any. -/
def progressOf : Event → Option ℚ
  | .upd p _ => some p
  | .completeJob _ _ => some 100
  | _ => none

/-- The sequence of progress values persisted over a run, in write order. -/
def progressTrace (evs : List Event) : List ℚ := evs.filterMap progressOf

/-- The job state a run event writes, if any. -/
def estadoOf : Event → Option String
  | .upd _ s => s
  | .completeJob _ _ => some ("completado")
  | .failJob _ => some ("fallido")
  | _ => none

/-- The sequence of job states written over a job's lifetime: the state
stored at creation followed by the states the run's events write. -/
def estadoTrace (created : String) (evs : List Event) : List String :=
  created :: evs.filterMap estadoOf

/-- The cleaned artifacts a run writes to disk. -/
def artifactsWritten (evs : List Event) : List String :=
  evs.filterMap (fun e => match e with | .saveArtifact n => some n | _ => none)

/-- The datos_limpiados records a run inserts. -/
def recordsInserted (evs : List Event) : List String :=
  evs.filterMap (fun e => match e with | .insertCleanedRecord i => some i | _ => none)

/-!  Executable helpers used to state and decide properties. -/

/-- Boolean check that a progress sequence is non-decreasing. -/
def chainLeB : List ℚ → Bool
  | [] => true
  | [_] => true
  | a :: b :: t => decide (a ≤ b) && chainLeB (b :: t)

/-- Substring occurrence on character lists. -/
def infixB (pat : List Char) : List Char → Bool
  | [] => pat.isEmpty
  | c :: t => List.isPrefixOf pat (c :: t) || infixB pat t

/-- Whether `pat` occurs as a contiguous substring of `s`. -/
def msgContains (s pat : String) : Bool := infixB pat.data s.data

/-- Rank of a job state in the lifecycle order
pendiente, en_progreso, terminal. -/
def stateRank (s : String) : Nat :=
  if s = "pendiente" then 0 else if s = "en_progreso" then 1 else 2

/-- Terminal job states. -/
def isTerminal (s : String) : Bool := s = "completado" || s = "fallido"

/-- The dataset of the specification's functional-correctness scenario:
columns [amount:int, category:str], rows (10,a),(null,a),(10,a),(1000,b)
(the null makes the amount column float64, hence numeric). -/
def scenarioFrame : Frame :=
  ⟨[("amount", ColData.num [some 10, none, some 10, some 1000]),
    ("category", ColData.cat [some "a", some "a", some "a", some "b"])]⟩

/-- A minimal loaded dataset: one numeric column with one row. -/
def oneCellFrame : Frame := ⟨[("x", ColData.num [some 0])]⟩

/-- A run whose database lookup finds no record for the source artifact. -/
def missingFileInput : RunInput :=
  ⟨none, true, true, oneCellFrame, true, true, "s1", "u1"⟩

/-- A fully successful run on the minimal dataset. -/
def okInput : RunInput :=
  ⟨some ⟨"datos.csv"⟩, true, true, oneCellFrame, true, true, "s1", "u1"⟩

/-- The dataset witnessing non-idempotence of the pipeline: one numeric
column [0, 0, 10, 1000] with a distinct tag per row (so deduplication
never interferes). -/
def skewedFrame : Frame :=
  ⟨[("amount", ColData.num [some 0, some 0, some 10, some 1000]),
    ("tag", ColData.cat [some "a", some "b", some "c", some "d"])]⟩

/-!  Helper lemmas. -/

lemma chainLeB_iff : ∀ l : List ℚ, chainLeB l = true ↔ l.Chain' (· ≤ ·)
  | [] => by simp [chainLeB]
  | [a] => by simp [chainLeB]
  | a :: b :: t => by
    rw [chainLeB, List.chain'_cons, Bool.and_eq_true, decide_eq_true_eq,
      chainLeB_iff (b :: t)]

lemma chain_replicate_append {α : Type} (R : α → α → Prop) (c : α) (l : List α)
    (hl : List.Chain' R l) (hcc : R c c) (hcy : ∀ y ∈ l.head?, R c y) :
    ∀ k, List.Chain' R (List.replicate k c ++ l)
  | 0 => by simpa using hl
  | k + 1 => by
    rw [List.replicate_succ, List.cons_append, List.chain'_cons']
    refine ⟨?_, chain_replicate_append R c l hl hcc hcy k⟩
    intro y hy
    cases k with
    | zero => simpa using hcy y (by simpa using hy)
    | succ k => simp [List.replicate_succ] at hy; simpa [hy] using hcc

lemma getLast?_cons_append {α : Type} (x : α) (l m : List α) :
    (x :: (l ++ m)).getLast? = (m.getLast?).or ((x :: l).getLast?) := by
  rw [← List.cons_append, List.getLast?_append]

lemma chain_rank_replicate_term (n : Nat) (t : String) (ht : isTerminal t = true) :
    List.Chain' (fun a b => stateRank a ≤ stateRank b)
      (List.replicate n ("en_progreso") ++ [t]) := by
  have h2 : stateRank t = 2 := by
    simp only [isTerminal, Bool.or_eq_true, decide_eq_true_eq] at ht
    rcases ht with h | h <;> subst h <;> decide
  apply chain_replicate_append
  · simp
  · decide
  · intro y hy
    simp only [List.head?_cons, Option.mem_def, Option.some_inj] at hy
    subst hy
    rw [h2]
    decide

lemma filterMap_estado_engine (l : List ℚ) :
    List.filterMap (estadoOf ∘ fun p : ℚ => Event.upd (10 + p * 0.8) (some ("en_progreso"))) l
      = List.replicate l.length ("en_progreso") := by
  induction l with
  | nil => rfl
  | cons a t ih => simp [List.filterMap_cons, estadoOf, Function.comp, ih, List.replicate_succ]

lemma filterMap_progress_engine (l : List ℚ) :
    List.filterMap (progressOf ∘ fun p : ℚ => Event.upd (10 + p * 0.8) (some ("en_progreso"))) l
      = l.map (fun p => 10 + p * 0.8) := by
  induction l with
  | nil => rfl
  | cons a t ih => simp [List.filterMap_cons, progressOf, Function.comp, ih]

lemma clean_data_trace (f : Frame) :
    (clean_data f).2.2 = [10, 25] ++ List.replicate (fillStage f.cols).2.2 (30 : ℚ)
      ++ [40, 50, 60, 70, 80, 85, 95, 100] := rfl

lemma engine_trace_chain (k : Nat) :
    List.Chain' (· ≤ ·) (([10, 25] : List ℚ) ++ List.replicate k (30 : ℚ)
      ++ [40, 50, 60, 70, 80, 85, 95, 100]) := by
  rw [List.append_assoc,
    show (([10, 25] : List ℚ) ++ (List.replicate k (30 : ℚ) ++ [40, 50, 60, 70, 80, 85, 95, 100]))
      = 10 :: 25 :: (List.replicate k (30 : ℚ) ++ [40, 50, 60, 70, 80, 85, 95, 100]) from rfl,
    List.chain'_cons, List.chain'_cons']
  refine ⟨by norm_num, ?_, ?_⟩
  · intro y hy
    rw [List.head?_append, List.head?_replicate] at hy
    rcases Nat.eq_zero_or_pos k with hk | hk
    · simp [hk] at hy
      subst hy
      norm_num
    · simp [Nat.pos_iff_ne_zero.mp hk] at hy
      subst hy
      norm_num
  · apply chain_replicate_append
    · norm_num [List.chain'_cons]
    · norm_num
    · intro y hy
      simp at hy
      subst hy
      norm_num

lemma map_adj_trace (f : Frame) :
    (clean_data f).2.2.map (fun p => 10 + p * 0.8)
      = [18, 30] ++ List.replicate (fillStage f.cols).2.2 (34 : ℚ)
        ++ [42, 50, 58, 66, 74, 78, 86, 90] := by
  rw [clean_data_trace]
  simp [List.map_append, List.map_replicate]
  norm_num

lemma orch_trace_chain (k : Nat) :
    List.Chain' (· ≤ ·) (([5, 10] : List ℚ) ++ ([18, 30]
      ++ List.replicate k (34 : ℚ) ++ [42, 50, 58, 66, 74, 78, 86, 90])) := by
  rw [show (([5, 10] : List ℚ) ++ ([18, 30] ++ List.replicate k (34 : ℚ)
        ++ [42, 50, 58, 66, 74, 78, 86, 90]))
      = 5 :: 10 :: 18 :: 30 :: (List.replicate k (34 : ℚ)
        ++ [42, 50, 58, 66, 74, 78, 86, 90]) from by simp,
    List.chain'_cons, List.chain'_cons, List.chain'_cons, List.chain'_cons']
  refine ⟨by norm_num, by norm_num, by norm_num, ?_, ?_⟩
  · intro y hy
    rw [List.head?_append, List.head?_replicate] at hy
    rcases Nat.eq_zero_or_pos k with hk | hk
    · simp [hk] at hy
      subst hy
      norm_num
    · simp [Nat.pos_iff_ne_zero.mp hk] at hy
      subst hy
      norm_num
  · apply chain_replicate_append
    · norm_num [List.chain'_cons]
    · norm_num
    · intro y hy
      simp at hy
      subst hy
      norm_num

lemma orch_progress_trace_shape (fi : FileInfo) (f : Frame) (so ro : Bool)
    (suf uid : String) :
    progressTrace (process_cleaning_job ⟨some fi, true, true, f, so, ro, suf, uid⟩).1
      = ([5, 10] ++ (clean_data f).2.2.map (fun p => 10 + p * 0.8)) ++ [85, 90, 100] := by
  simp only [process_cleaning_job, progressTrace, List.filterMap_append, List.filterMap_map,
    save_cleaned_file, register_cleaned_data]
  cases so <;> cases ro <;>
    simp [progressOf, filterMap_progress_engine, List.filterMap_cons]

lemma getD_eq_get (s : List ℚ) (i : Nat) (d : ℚ) (h : i < s.length) :
    s.getD i d = s.get ⟨i, h⟩ := by
  rw [List.getD_eq_get?, List.get?_eq_get h]
  rfl

lemma sorted_getD_le (s : List ℚ) (hs : List.Sorted (· ≤ ·) s) (i j : Nat)
    (hij : i ≤ j) (hj : j < s.length) (d : ℚ) :
    s.getD i d ≤ s.getD j d := by
  have hi : i < s.length := lt_of_le_of_lt hij hj
  rcases Nat.eq_or_lt_of_le hij with h | h
  · subst h
    rfl
  · rw [getD_eq_get s i d hi, getD_eq_get s j d hj]
    exact hs.rel_get_of_lt (Fin.mk_lt_mk.mpr h)

lemma interpAt_mono (s : List ℚ) (hs : List.Sorted (· ≤ ·) s)
    (h hb : ℚ) (h0 : 0 ≤ h) (hhh : h ≤ hb) (hn : hb ≤ (s.length : ℚ) - 1) :
    interpAt s h ≤ interpAt s hb := by
  have h0b : 0 ≤ hb := le_trans h0 hhh
  have hfl0 : 0 ≤ ⌊h⌋ := Int.floor_nonneg.mpr h0
  have hfl0b : 0 ≤ ⌊hb⌋ := Int.floor_nonneg.mpr h0b
  set i := (⌊h⌋).toNat with hi_def
  set ib := (⌊hb⌋).toNat with hib_def
  have hcast : (i : ℚ) = ((⌊h⌋ : ℤ) : ℚ) := by
    rw [hi_def]
    exact_mod_cast congrArg (fun z : ℤ => (z : ℚ)) (Int.toNat_of_nonneg hfl0)
  have hcastb : (ib : ℚ) = ((⌊hb⌋ : ℤ) : ℚ) := by
    rw [hib_def]
    exact_mod_cast congrArg (fun z : ℤ => (z : ℚ)) (Int.toNat_of_nonneg hfl0b)
  have hfr0 : 0 ≤ h - (i : ℚ) := by
    rw [hcast]
    have := Int.floor_le h
    linarith
  have hfr1 : h - (i : ℚ) < 1 := by
    rw [hcast]
    have := Int.lt_floor_add_one h
    linarith
  have hfr0b : 0 ≤ hb - (ib : ℚ) := by
    rw [hcastb]
    have := Int.floor_le hb
    linarith
  have hiib : i ≤ ib := by
    rw [hi_def, hib_def]
    exact Int.toNat_le_toNat (Int.floor_le_floor hhh)
  have hib_le : (ib : ℚ) ≤ (s.length : ℚ) - 1 := by
    rw [hcastb]
    have := Int.floor_le hb
    linarith
  have hib_lt : ib < s.length := by
    have hq : (ib : ℚ) + 1 ≤ (s.length : ℚ) := by linarith
    exact_mod_cast hq
  have hi_lt : i < s.length := lt_of_le_of_lt hiib hib_lt
  have hIh : interpAt s h
      = s.getD i 0 + (h - (i : ℚ)) * (s.getD (i + 1) (s.getD i 0) - s.getD i 0) := rfl
  have hIhb : interpAt s hb
      = s.getD ib 0 + (hb - (ib : ℚ)) * (s.getD (ib + 1) (s.getD ib 0) - s.getD ib 0) := rfl
  have lo_le_hi : ∀ j : Nat, j < s.length → s.getD j 0 ≤ s.getD (j + 1) (s.getD j 0) := by
    intro j hj
    by_cases hc : j + 1 < s.length
    · have heq : s.getD (j + 1) (s.getD j 0) = s.getD (j + 1) 0 := by
        rw [getD_eq_get s _ _ hc, getD_eq_get s _ 0 hc]
      rw [heq]
      exact sorted_getD_le s hs j (j + 1) (Nat.le_succ j) hc 0
    · rw [List.getD_eq_default _ _ (Nat.le_of_not_lt hc)]
  rcases Nat.eq_or_lt_of_le hiib with heq | hlt
  · rw [hIh, hIhb, ← heq]
    have hd : 0 ≤ s.getD (i + 1) (s.getD i 0) - s.getD i 0 :=
      sub_nonneg.mpr (lo_le_hi i hi_lt)
    have hfrb : h - (i : ℚ) ≤ hb - (i : ℚ) := by linarith
    have := mul_le_mul_of_nonneg_right hfrb hd
    linarith
  · have hi1_le : i + 1 ≤ ib := hlt
    have hi1_lt : i + 1 < s.length := lt_of_le_of_lt hi1_le hib_lt
    have hhi_eq : s.getD (i + 1) (s.getD i 0) = s.getD (i + 1) 0 := by
      rw [getD_eq_get s _ _ hi1_lt, getD_eq_get s _ 0 hi1_lt]
    have hd : 0 ≤ s.getD (i + 1) 0 - s.getD i 0 := by
      have := lo_le_hi i hi_lt
      rw [hhi_eq] at this
      exact sub_nonneg.mpr this
    have step1 : interpAt s h ≤ s.getD (i + 1) 0 := by
      rw [hIh, hhi_eq]
      have := mul_le_mul_of_nonneg_right (le_of_lt hfr1) hd
      linarith
    have step2 : s.getD (i + 1) 0 ≤ s.getD ib 0 :=
      sorted_getD_le s hs (i + 1) ib hi1_le hib_lt 0
    have step3 : s.getD ib 0 ≤ interpAt s hb := by
      rw [hIhb]
      have hdb : 0 ≤ s.getD (ib + 1) (s.getD ib 0) - s.getD ib 0 :=
        sub_nonneg.mpr (lo_le_hi ib hib_lt)
      have := mul_nonneg hfr0b hdb
      linarith
    linarith

lemma quantileQ_q1_le_q3 (vals : List ℚ) (q1 q3 : ℚ)
    (h1 : quantileQ vals (1/4) = some q1) (h3 : quantileQ vals (3/4) = some q3) :
    q1 ≤ q3 := by
  by_cases hv : vals.isEmpty
  · rw [quantileQ, if_pos hv] at h1
    exact Option.noConfusion h1
  · rw [quantileQ, if_neg hv] at h1 h3
    have hlen : 1 ≤ vals.length := by
      cases vals with
      | nil => simp at hv
      | cons a t => exact Nat.succ_le_succ (Nat.zero_le _)
    have hlenQ : (1 : ℚ) ≤ (vals.length : ℚ) := by exact_mod_cast hlen
    have hsorted : List.Sorted (· ≤ ·) (List.insertionSort (· ≤ ·) vals) :=
      List.sorted_insertionSort (· ≤ ·) vals
    have hslen : (List.insertionSort (· ≤ ·) vals).length = vals.length :=
      (List.perm_insertionSort (· ≤ ·) vals).length_eq
    rw [Option.some_inj] at h1 h3
    rw [← h1, ← h3]
    apply interpAt_mono _ hsorted
    · have : (0 : ℚ) ≤ (vals.length : ℚ) - 1 := by linarith
      linarith
    · nlinarith
    · rw [hslen]
      nlinarith

lemma foldl_min_le_init (xs : List ℚ) : ∀ a : ℚ, xs.foldl min a ≤ a := by
  induction xs with
  | nil => intro a; simp
  | cons x t ih =>
    intro a
    calc (x :: t).foldl min a = t.foldl min (min a x) := rfl
    _ ≤ min a x := ih (min a x)
    _ ≤ a := min_le_left a x

lemma foldl_min_le_mem (xs : List ℚ) : ∀ a v : ℚ, v ∈ xs → xs.foldl min a ≤ v := by
  induction xs with
  | nil => intro a v hv; simp at hv
  | cons x t ih =>
    intro a v hv
    rcases List.mem_cons.mp hv with h | h
    · subst h
      calc (v :: t).foldl min a = t.foldl min (min a v) := rfl
      _ ≤ min a v := foldl_min_le_init t (min a v)
      _ ≤ v := min_le_right a v
    · exact ih (min a x) v h

lemma foldl_min_mem (xs : List ℚ) : ∀ a : ℚ, xs.foldl min a = a ∨ xs.foldl min a ∈ xs := by
  induction xs with
  | nil => intro a; left; rfl
  | cons x t ih =>
    intro a
    rcases ih (min a x) with h | h
    · rcases le_total a x with hax | hax
      · left
        rw [show (x :: t).foldl min a = t.foldl min (min a x) from rfl, h, min_eq_left hax]
      · right
        rw [show (x :: t).foldl min a = t.foldl min (min a x) from rfl, h, min_eq_right hax]
        exact List.mem_cons_self x t
    · right
      exact List.mem_cons_of_mem x h

lemma listMin_spec (vals : List ℚ) (h : vals ≠ []) :
    ∃ mn, listMin vals = some mn ∧ mn ∈ vals ∧ ∀ v ∈ vals, mn ≤ v := by
  cases vals with
  | nil => exact absurd rfl h
  | cons x t =>
    refine ⟨t.foldl min x, rfl, ?_, ?_⟩
    · rcases foldl_min_mem t x with h | h
      · rw [h]; exact List.mem_cons_self x t
      · exact List.mem_cons_of_mem x h
    · intro v hv
      rcases List.mem_cons.mp hv with h | h
      · subst h; exact foldl_min_le_init t v
      · exact foldl_min_le_mem t x v h

lemma listMin_eq_of (l : List ℚ) (m : ℚ) (hmem : m ∈ l) (hle : ∀ v ∈ l, m ≤ v) :
    listMin l = some m := by
  obtain ⟨mn, heq, hmn_mem, hmn_le⟩ := listMin_spec l (List.ne_nil_of_mem hmem)
  rw [heq, Option.some_inj]
  exact le_antisymm (hmn_le m hmem) (hle mn hmn_mem)

lemma foldl_max_ge_init (xs : List ℚ) : ∀ a : ℚ, a ≤ xs.foldl max a := by
  induction xs with
  | nil => intro a; simp
  | cons x t ih =>
    intro a
    calc a ≤ max a x := le_max_left a x
    _ ≤ t.foldl max (max a x) := ih (max a x)

lemma foldl_max_ge_mem (xs : List ℚ) : ∀ a v : ℚ, v ∈ xs → v ≤ xs.foldl max a := by
  induction xs with
  | nil => intro a v hv; simp at hv
  | cons x t ih =>
    intro a v hv
    rcases List.mem_cons.mp hv with h | h
    · subst h
      calc v ≤ max a v := le_max_right a v
      _ ≤ t.foldl max (max a v) := foldl_max_ge_init t (max a v)
    · exact ih (max a x) v h

lemma foldl_max_mem (xs : List ℚ) : ∀ a : ℚ, xs.foldl max a = a ∨ xs.foldl max a ∈ xs := by
  induction xs with
  | nil => intro a; left; rfl
  | cons x t ih =>
    intro a
    rcases ih (max a x) with h | h
    · rcases le_total x a with hax | hax
      · left
        rw [show (x :: t).foldl max a = t.foldl max (max a x) from rfl, h, max_eq_left hax]
      · right
        rw [show (x :: t).foldl max a = t.foldl max (max a x) from rfl, h, max_eq_right hax]
        exact List.mem_cons_self x t
    · right
      exact List.mem_cons_of_mem x h

lemma listMax_spec (vals : List ℚ) (h : vals ≠ []) :
    ∃ mx, listMax vals = some mx ∧ mx ∈ vals ∧ ∀ v ∈ vals, v ≤ mx := by
  cases vals with
  | nil => exact absurd rfl h
  | cons x t =>
    refine ⟨t.foldl max x, rfl, ?_, ?_⟩
    · rcases foldl_max_mem t x with h | h
      · rw [h]; exact List.mem_cons_self x t
      · exact List.mem_cons_of_mem x h
    · intro v hv
      rcases List.mem_cons.mp hv with h | h
      · subst h; exact foldl_max_ge_init t v
      · exact foldl_max_ge_mem t x v h

lemma listMax_eq_of (l : List ℚ) (m : ℚ) (hmem : m ∈ l) (hge : ∀ v ∈ l, v ≤ m) :
    listMax l = some m := by
  obtain ⟨mx, heq, hmx_mem, hmx_ge⟩ := listMax_spec l (List.ne_nil_of_mem hmem)
  rw [heq, Option.some_inj]
  exact le_antisymm (hge mx hmx_mem) (hmx_ge m hmem)

lemma filterMap_id_map_optionMap (g : ℚ → ℚ) (cs : List (Option ℚ)) :
    ((cs.map (Option.map g)).filterMap id) = (cs.filterMap id).map g := by
  induction cs with
  | nil => rfl
  | cons c t ih => cases c <;> simp [List.filterMap_cons, ih]

lemma clampStage_structure : ∀ cols : List (String × ColData),
    (clampStage cols).1 = cols.map (fun c =>
      match c.2 with
      | .num cs => (c.1, ColData.num (clampNum cs).1)
      | .cat cs => (c.1, ColData.cat cs))
  | [] => rfl
  | c :: rest => by
    rcases c with ⟨name, cd⟩
    cases cd <;> simp [clampStage, clampStage_structure rest]

lemma normalizeStage_names : ∀ cols : List (String × ColData),
    (normalizeStage cols).2 = cols.filterMap (fun c =>
      match c.2 with
      | .num cs => if (normNum cs).2 then some c.1 else none
      | .cat _ => none)
  | [] => rfl
  | c :: rest => by
    rcases c with ⟨name, cd⟩
    cases cd with
    | num cs =>
      by_cases hf : (normNum cs).2 <;>
        simp [normalizeStage, List.filterMap_cons, hf, normalizeStage_names rest]
    | cat cs =>
      simp [normalizeStage, List.filterMap_cons, normalizeStage_names rest]

-- filterMap id = [] means all entries are none
lemma filterMap_id_nil {α : Type} : ∀ cs : List (Option α),
    cs.filterMap id = [] → ∀ v ∈ cs, v = none
  | [], _, v, hv => absurd hv (List.not_mem_nil v)
  | (none :: t), h, v, hv => by
    rcases List.mem_cons.mp hv with hv | hv
    · exact hv
    · exact filterMap_id_nil t (by simpa [List.filterMap_cons] using h) v hv
  | (some a :: t), h, v, hv => by
    simp [List.filterMap_cons] at h

lemma meanQ_eq_none_iff (vals : List ℚ) : meanQ vals = none ↔ vals = [] := by
  cases vals <;> simp [meanQ]

lemma modeStr_eq_none_iff (vals : List String) : modeStr vals = none ↔ vals = [] := by
  cases vals with
  | nil => simp [modeStr]
  | cons v t =>
    simp only [modeStr]
    constructor
    · intro h
      exfalso
      revert h
      cases hc : List.filter
          (fun w => decide (countOcc (v :: t) w
            = (List.foldl max 0 (List.map (fun x => countOcc (v :: t) x) (v :: t))))) (v :: t) with
      | nil => intro h; exact Option.noConfusion h
      | cons c cs => intro h; exact Option.noConfusion h
    · intro h
      exact List.noConfusion h

-- fill output is always null-clean
lemma fillColumn_nullClean (c : ColData) : (fillColumn c).1.nullClean := by
  cases c with
  | num cs =>
    simp only [fillColumn]
    by_cases hn : 0 < (cs.filter (fun v => v.isNone)).length
    · rw [if_pos hn]
      cases hm : meanQ (cs.filterMap id) with
      | some m =>
        right
        intro v hv
        obtain ⟨w, hw, hwv⟩ := List.mem_map.mp hv
        rw [← hwv]
        exact Option.noConfusion
      | none =>
        left
        exact filterMap_id_nil cs ((meanQ_eq_none_iff _).mp hm)
    · rw [if_neg hn]
      right
      intro v hv hnone
      apply hn
      have : v ∈ cs.filter (fun v => v.isNone) :=
        List.mem_filter.mpr ⟨hv, by rw [hnone]; rfl⟩
      exact List.length_pos.mpr (List.ne_nil_of_mem this)
  | cat cs =>
    simp only [fillColumn]
    by_cases hn : 0 < (cs.filter (fun v => v.isNone)).length
    · rw [if_pos hn]
      cases hm : modeStr (cs.filterMap id) with
      | some m =>
        right
        intro v hv
        obtain ⟨w, hw, hwv⟩ := List.mem_map.mp hv
        rw [← hwv]
        exact Option.noConfusion
      | none =>
        left
        exact filterMap_id_nil cs ((modeStr_eq_none_iff _).mp hm)
    · rw [if_neg hn]
      right
      intro v hv hnone
      apply hn
      have : v ∈ cs.filter (fun v => v.isNone) :=
        List.mem_filter.mpr ⟨hv, by rw [hnone]; rfl⟩
      exact List.length_pos.mpr (List.ne_nil_of_mem this)

-- fill is the identity on a null-clean column
lemma fillColumn_of_nullClean (c : ColData) (h : c.nullClean) :
    fillColumn c = (c, 0, false) := by
  cases c with
  | num cs =>
    simp only [fillColumn]
    rcases h with h | h
    · cases cs with
      | nil => simp
      | cons x t =>
        have hx : x = none := h x (List.mem_cons_self x t)
        have hpos : 0 < ((x :: t).filter (fun v => v.isNone)).length := by
          apply List.length_pos.mpr
          apply List.ne_nil_of_mem (a := x)
          exact List.mem_filter.mpr ⟨List.mem_cons_self x t, by rw [hx]; rfl⟩
        rw [if_pos hpos]
        have hnil : (x :: t).filterMap id = [] := by
          rw [List.filterMap_eq_nil]
          intro a ha
          rw [h a ha]
          rfl
        rw [hnil]
        rfl
    · have hz : (cs.filter (fun v => v.isNone)).length = 0 := by
        rw [List.length_eq_zero, List.filter_eq_nil]
        intro a ha hIs
        exact h a ha (Option.isNone_iff_eq_none.mp hIs)
      rw [hz]
      simp
  | cat cs =>
    simp only [fillColumn]
    rcases h with h | h
    · cases cs with
      | nil => simp
      | cons x t =>
        have hx : x = none := h x (List.mem_cons_self x t)
        have hpos : 0 < ((x :: t).filter (fun v => v.isNone)).length := by
          apply List.length_pos.mpr
          apply List.ne_nil_of_mem (a := x)
          exact List.mem_filter.mpr ⟨List.mem_cons_self x t, by rw [hx]; rfl⟩
        rw [if_pos hpos]
        have hnil : (x :: t).filterMap id = [] := by
          rw [List.filterMap_eq_nil]
          intro a ha
          rw [h a ha]
          rfl
        rw [hnil]
        rfl
    · have hz : (cs.filter (fun v => v.isNone)).length = 0 := by
        rw [List.length_eq_zero, List.filter_eq_nil]
        intro a ha hIs
        exact h a ha (Option.isNone_iff_eq_none.mp hIs)
      rw [hz]
      simp

lemma fillStage_of_nullClean : ∀ cols : List (String × ColData),
    (∀ c ∈ cols, c.2.nullClean) → fillStage cols = (cols, 0, 0)
  | [], _ => rfl
  | c :: rest, h => by
    have h1 := fillColumn_of_nullClean c.2 (h c (List.mem_cons_self c rest))
    have h2 := fillStage_of_nullClean rest (fun d hd => h d (List.mem_cons_of_mem c hd))
    simp [fillStage, h1, h2]

lemma maskFilter_nil {α : Type} : ∀ ks : List Bool, maskFilter ks ([] : List α) = []
  | [] => rfl
  | _ :: _ => by simp [maskFilter]

lemma maskFilter_subset {α : Type} : ∀ (ks : List Bool) (xs : List α) (x : α),
    x ∈ maskFilter ks xs → x ∈ xs
  | ks, [], x, h => by rw [maskFilter_nil] at h; exact absurd h (List.not_mem_nil x)
  | [], _ :: _, x, h => absurd h (List.not_mem_nil x)
  | true :: ks, y :: xs, x, h => by
    rcases List.mem_cons.mp h with h | h
    · exact h ▸ List.mem_cons_self y xs
    · exact List.mem_cons_of_mem y (maskFilter_subset ks xs x h)
  | false :: ks, y :: xs, x, h =>
    List.mem_cons_of_mem y (maskFilter_subset ks xs x h)

lemma maskFilter_map {α β : Type} (g : α → β) : ∀ (ks : List Bool) (xs : List α),
    maskFilter ks (xs.map g) = (maskFilter ks xs).map g
  | ks, [] => by rw [List.map_nil, maskFilter_nil, maskFilter_nil, List.map_nil]
  | [], x :: xs => by simp [maskFilter]
  | true :: ks, x :: xs => by simp [maskFilter, maskFilter_map g ks xs]
  | false :: ks, x :: xs => by simp [maskFilter, maskFilter_map g ks xs]

lemma maskFilter_zipWith {α β γ : Type} (f : α → β → γ) :
    ∀ (ks : List Bool) (xs : List α) (ys : List β),
    maskFilter ks (List.zipWith f xs ys)
      = List.zipWith f (maskFilter ks xs) (maskFilter ks ys)
  | ks, [], ys => by rw [List.zipWith_nil_left, maskFilter_nil, maskFilter_nil, List.zipWith_nil_left]
  | ks, x :: xs, [] => by
    rw [List.zipWith_nil_right, maskFilter_nil, maskFilter_nil, List.zipWith_nil_right]
  | [], x :: xs, y :: ys => by simp [maskFilter]
  | true :: ks, x :: xs, y :: ys => by
    simp [maskFilter, maskFilter_zipWith f ks xs ys]
  | false :: ks, x :: xs, y :: ys => by
    simp [maskFilter, maskFilter_zipWith f ks xs ys]

lemma maskFilter_foldl_zipWith (ks : List Bool) :
    ∀ (ms : List (List Bool)) (m : List Bool),
    maskFilter ks (ms.foldl (fun acc mk => List.zipWith (fun a b => a && b) acc mk) m)
      = (ms.map (maskFilter ks)).foldl
          (fun acc mk => List.zipWith (fun a b => a && b) acc mk) (maskFilter ks m)
  | [], m => rfl
  | mk :: ms, m => by
    simp only [List.foldl_cons, List.map_cons]
    rw [← maskFilter_zipWith]
    exact maskFilter_foldl_zipWith ks ms _

lemma maskFilter_not_self : ∀ m : List Bool, ∀ b ∈ maskFilter (m.map (fun b => !b)) m, b = false
  | [], b, h => by rw [maskFilter_nil] at h; exact absurd h (List.not_mem_nil b)
  | true :: m, b, h => by
    simp only [List.map_cons, Bool.not_true, maskFilter] at h
    exact maskFilter_not_self m b h
  | false :: m, b, h => by
    simp only [List.map_cons, Bool.not_false, maskFilter] at h
    rcases List.mem_cons.mp h with h | h
    · exact h
    · exact maskFilter_not_self m b h

lemma maskFilter_all_true {α : Type} : ∀ (ks : List Bool) (xs : List α),
    (∀ b ∈ ks, b = true) → xs.length ≤ ks.length → maskFilter ks xs = xs
  | ks, [], _, _ => maskFilter_nil ks
  | [], x :: xs, _, hlen => by simp at hlen
  | k :: ks, x :: xs, hall, hlen => by
    have hk : k = true := hall k (List.mem_cons_self k ks)
    subst hk
    simp only [maskFilter]
    rw [maskFilter_all_true ks xs (fun b hb => hall b (List.mem_cons_of_mem _ hb))
      (Nat.le_of_succ_le_succ hlen)]

lemma maskFilter_length_congr {α β : Type} : ∀ (ks : List Bool) (xs : List α) (ys : List β),
    xs.length = ys.length → (maskFilter ks xs).length = (maskFilter ks ys).length
  | ks, [], [] , _ => by rw [maskFilter_nil, maskFilter_nil]; rfl
  | ks, [], y :: ys, h => by simp at h
  | ks, x :: xs, [], h => by simp at h
  | [], x :: xs, y :: ys, h => rfl
  | true :: ks, x :: xs, y :: ys, h => by
    simp only [maskFilter, List.length_cons]
    rw [maskFilter_length_congr ks xs ys (Nat.succ_injective h)]
  | false :: ks, x :: xs, y :: ys, h =>
    maskFilter_length_congr ks xs ys (Nat.succ_injective h)

lemma isNone_optionMap {α β : Type} (g : α → β) (v : Option α) :
    (Option.map g v).isNone = v.isNone := by
  cases v <;> rfl

lemma clampNum_shape (cs : List (Option ℚ)) :
    (clampNum cs).1 = cs ∨ ∃ g : ℚ → ℚ, (clampNum cs).1 = cs.map (Option.map g) := by
  rcases h1 : quantileQ (cs.filterMap id) (1/4) with _ | q1 <;>
    rcases h3 : quantileQ (cs.filterMap id) (3/4) with _ | q3
  · left; simp only [clampNum, h1, h3]
  · left; simp only [clampNum, h1, h3]
  · left; simp only [clampNum, h1, h3]
  · by_cases hoc : 0 < ((cs.filterMap id).filter
        (fun v => decide (v < q1 - 1.5 * (q3 - q1))
          || decide (q3 + 1.5 * (q3 - q1) < v))).length
    · right
      refine ⟨fun v => if q3 + 1.5 * (q3 - q1)
            < (if v < q1 - 1.5 * (q3 - q1) then q1 - 1.5 * (q3 - q1) else v)
          then q3 + 1.5 * (q3 - q1)
          else (if v < q1 - 1.5 * (q3 - q1) then q1 - 1.5 * (q3 - q1) else v), ?_⟩
      simp only [clampNum, h1, h3]
      rw [if_pos hoc]
    · left
      simp only [clampNum, h1, h3]
      rw [if_neg hoc]

lemma normNum_shape (cs : List (Option ℚ)) :
    (normNum cs).1 = cs ∨ ∃ g : ℚ → ℚ, (normNum cs).1 = cs.map (Option.map g) := by
  by_cases hs : stdPos (cs.filterMap id)
  · rcases hmn : listMin (cs.filterMap id) with _ | mn <;>
      rcases hmx : listMax (cs.filterMap id) with _ | mx
    · left; simp only [normNum, hs, hmn, hmx, if_true]
    · left; simp only [normNum, hs, hmn, hmx, if_true]
    · left; simp only [normNum, hs, hmn, hmx, if_true]
    · by_cases hne : mx ≠ mn
      · right
        refine ⟨fun v => (v - mn) / (mx - mn), ?_⟩
        simp only [normNum, hs, hmn, hmx, if_true]
        rw [if_pos hne]
      · left
        simp only [normNum, hs, hmn, hmx, if_true]
        rw [if_neg hne]
  · left
    simp only [normNum]
    rw [if_neg hs]

lemma nullClean_map {α β : Type} (g : α → β) (cs : List (Option α))
    (h : (∀ v ∈ cs, v = none) ∨ (∀ v ∈ cs, v ≠ none)) :
    (∀ v ∈ cs.map (Option.map g), v = none) ∨ (∀ v ∈ cs.map (Option.map g), v ≠ none) := by
  rcases h with h | h
  · left
    intro v hv
    obtain ⟨w, hw, hwv⟩ := List.mem_map.mp hv
    rw [← hwv, h w hw]
    rfl
  · right
    intro v hv
    obtain ⟨w, hw, hwv⟩ := List.mem_map.mp hv
    rw [← hwv]
    cases hw2 : w with
    | none => exact absurd hw2 (h w hw)
    | some a => exact Option.noConfusion

lemma nullClean_filterRows (c : ColData) (ks : List Bool) (h : c.nullClean) :
    (c.filterRows ks).nullClean := by
  cases c with
  | num cs =>
    rcases h with h | h
    · exact Or.inl (fun v hv => h v (maskFilter_subset ks cs v hv))
    · exact Or.inr (fun v hv => h v (maskFilter_subset ks cs v hv))
  | cat cs =>
    rcases h with h | h
    · exact Or.inl (fun v hv => h v (maskFilter_subset ks cs v hv))
    · exact Or.inr (fun v hv => h v (maskFilter_subset ks cs v hv))

lemma nullClean_clampNum (cs : List (Option ℚ))
    (h : (ColData.num cs).nullClean) : (ColData.num (clampNum cs).1).nullClean := by
  rcases clampNum_shape cs with hc | ⟨g, hc⟩
  · rw [hc]; exact h
  · rw [hc]; exact nullClean_map g cs h

lemma nullClean_normNum (cs : List (Option ℚ))
    (h : (ColData.num cs).nullClean) : (ColData.num (normNum cs).1).nullClean := by
  rcases normNum_shape cs with hc | ⟨g, hc⟩
  · rw [hc]; exact h
  · rw [hc]; exact nullClean_map g cs h

lemma fillStage_structure : ∀ cols : List (String × ColData),
    (fillStage cols).1 = cols.map (fun c => (c.1, (fillColumn c.2).1))
  | [] => rfl
  | c :: rest => by
    simp [fillStage, fillStage_structure rest]

lemma normalizeStage_structure : ∀ cols : List (String × ColData),
    (normalizeStage cols).1 = cols.map (fun c =>
      match c.2 with
      | .num cs => (c.1, ColData.num (normNum cs).1)
      | .cat cs => (c.1, ColData.cat cs))
  | [] => rfl
  | c :: rest => by
    rcases c with ⟨name, cd⟩
    cases cd <;> simp [normalizeStage, normalizeStage_structure rest]

-- every column of the cleaned frame is null-clean
lemma clean_cols_nullClean (f : Frame) : ∀ c ∈ (clean_data f).1.cols, c.2.nullClean := by
  intro c hc
  have hcols : (clean_data f).1.cols =
      (normalizeStage (clampStage (dropDuplicates (dropnaAll ⟨(fillStage f.cols).1⟩)).cols).1).1 := rfl
  rw [hcols, normalizeStage_structure] at hc
  obtain ⟨c₄, hc₄, hcc⟩ := List.mem_map.mp hc
  rw [clampStage_structure] at hc₄
  obtain ⟨c₃, hc₃, hcc₃⟩ := List.mem_map.mp hc₄
  have hc₃clean : c₃.2.nullClean := by
    have hcols₃ : (dropDuplicates (dropnaAll ⟨(fillStage f.cols).1⟩)).cols
        = (dropnaAll ⟨(fillStage f.cols).1⟩).cols.map
            (fun c => (c.1, c.2.filterRows ((dupFlags (dropnaAll ⟨(fillStage f.cols).1⟩)).map (fun b => !b)))) := rfl
    rw [hcols₃] at hc₃
    obtain ⟨c₂, hc₂, hcc₂⟩ := List.mem_map.mp hc₃
    have hc₂clean : c₂.2.nullClean := by
      have hcols₂ : (dropnaAll ⟨(fillStage f.cols).1⟩).cols
          = ((fillStage f.cols).1).map
              (fun c => (c.1, c.2.filterRows ((Frame.allNullMask ⟨(fillStage f.cols).1⟩).map (fun b => !b)))) := rfl
      rw [hcols₂, fillStage_structure] at hc₂
      obtain ⟨c₁, hc₁, hcc₁⟩ := List.mem_map.mp hc₂
      obtain ⟨c₀, hc₀, hcc₀⟩ := List.mem_map.mp hc₁
      rw [← hcc₁, ← hcc₀]
      exact nullClean_filterRows _ _ (fillColumn_nullClean c₀.2)
    rw [← hcc₂]
    exact nullClean_filterRows _ _ hc₂clean
  have hc₄clean : c₄.2.nullClean := by
    obtain ⟨n₃, cd₃⟩ := c₃
    cases cd₃ with
    | num cs₃ =>
      rw [← hcc₃]
      exact nullClean_clampNum cs₃ hc₃clean
    | cat cs₃ =>
      rw [← hcc₃]
      exact hc₃clean
  rw [← hcc]
  obtain ⟨n₄, cd₄⟩ := c₄
  cases cd₄ with
  | num cs₄ => exact nullClean_normNum cs₄ hc₄clean
  | cat cs₄ => exact hc₄clean

lemma nullMask_length (c : ColData) : c.nullMask.length = c.length := by
  cases c <;> simp [ColData.nullMask, ColData.length]

lemma nullMask_filterRows (c : ColData) (ks : List Bool) :
    (c.filterRows ks).nullMask = maskFilter ks c.nullMask := by
  cases c <;> simp [ColData.nullMask, ColData.filterRows, maskFilter_map]

lemma nullMask_map_num (g : ℚ → ℚ) (cs : List (Option ℚ)) :
    (ColData.num (cs.map (Option.map g))).nullMask = (ColData.num cs).nullMask := by
  simp only [ColData.nullMask, List.map_map]
  apply List.map_congr_left
  intro v hv
  exact isNone_optionMap g v

lemma allNullMask_filterFrame (f : Frame) (ks : List Bool) :
    Frame.allNullMask ⟨f.cols.map (fun c => (c.1, c.2.filterRows ks))⟩
      = maskFilter ks f.allNullMask := by
  obtain ⟨cols⟩ := f
  cases cols with
  | nil =>
    simp [Frame.allNullMask, Frame.nrows, maskFilter_nil]
  | cons c rest =>
    have hmaps : ((c :: rest).map (fun d => (d.1, d.2.filterRows ks))).map
        (fun d => d.2.nullMask)
        = ((c :: rest).map (fun d => d.2.nullMask)).map (maskFilter ks) := by
      rw [List.map_map, List.map_map]
      apply List.map_congr_left
      intro d hd
      exact nullMask_filterRows d.2 ks
    simp only [Frame.allNullMask]
    rw [hmaps]
    simp only [List.map_cons]
    rw [← maskFilter_foldl_zipWith]

lemma allNullMask_congr (cols₁ cols₂ : List (String × ColData))
    (h : cols₂.map (fun c => c.2.nullMask) = cols₁.map (fun c => c.2.nullMask)) :
    Frame.allNullMask ⟨cols₂⟩ = Frame.allNullMask ⟨cols₁⟩ := by
  cases cols₂ with
  | nil =>
    have h1 : cols₁ = [] := by
      have h2 : List.map (fun c => c.2.nullMask) cols₁ = [] := by
        rw [← h]
        rfl
      exact List.map_eq_nil.mp h2
    subst h1
    rfl
  | cons c rest =>
    cases cols₁ with
    | nil => simp at h
    | cons d restb =>
      simp only [Frame.allNullMask]
      simp only [List.map_cons] at h ⊢
      rw [List.cons.injEq] at h
      rw [h.1, h.2]

lemma clampStage_nullMask (cols : List (String × ColData)) :
    (clampStage cols).1.map (fun c => c.2.nullMask) = cols.map (fun c => c.2.nullMask) := by
  rw [clampStage_structure, List.map_map]
  apply List.map_congr_left
  intro c hc
  obtain ⟨n, cd⟩ := c
  cases cd with
  | num cs =>
    rcases clampNum_shape cs with h | ⟨g, h⟩
    · simp [h]
    · simp only [Function.comp]
      rw [h]
      exact nullMask_map_num g cs
  | cat cs => rfl

lemma normalizeStage_nullMask (cols : List (String × ColData)) :
    (normalizeStage cols).1.map (fun c => c.2.nullMask) = cols.map (fun c => c.2.nullMask) := by
  rw [normalizeStage_structure, List.map_map]
  apply List.map_congr_left
  intro c hc
  obtain ⟨n, cd⟩ := c
  cases cd with
  | num cs =>
    rcases normNum_shape cs with h | ⟨g, h⟩
    · simp [h]
    · simp only [Function.comp]
      rw [h]
      exact nullMask_map_num g cs
  | cat cs => rfl

-- the cleaned frame has no all-null row
lemma clean_allNullMask_false (f : Frame) :
    ∀ b ∈ (clean_data f).1.allNullMask, b = false := by
  intro b hb
  have hcols : (clean_data f).1.cols =
      (normalizeStage (clampStage (dropDuplicates (dropnaAll ⟨(fillStage f.cols).1⟩)).cols).1).1 := rfl
  set f₂ := dropnaAll ⟨(fillStage f.cols).1⟩ with hf₂
  have h2 : ∀ b ∈ f₂.allNullMask, b = false := by
    intro b hb
    rw [hf₂] at hb
    rw [show dropnaAll ⟨(fillStage f.cols).1⟩
        = ⟨(⟨(fillStage f.cols).1⟩ : Frame).cols.map (fun c =>
            (c.1, c.2.filterRows ((Frame.allNullMask ⟨(fillStage f.cols).1⟩).map (fun b => !b))))⟩
      from rfl, allNullMask_filterFrame] at hb
    exact maskFilter_not_self _ b hb
  have h3 : ∀ b ∈ (dropDuplicates f₂).allNullMask, b = false := by
    intro b hb
    rw [show dropDuplicates f₂
        = ⟨f₂.cols.map (fun c => (c.1, c.2.filterRows ((dupFlags f₂).map (fun b => !b))))⟩
      from rfl, allNullMask_filterFrame] at hb
    exact h2 b (maskFilter_subset _ _ b hb)
  have h5 : (clean_data f).1.allNullMask = (dropDuplicates f₂).allNullMask := by
    have e1 : (clean_data f).1.allNullMask
        = Frame.allNullMask ⟨(normalizeStage (clampStage (dropDuplicates f₂).cols).1).1⟩ := rfl
    rw [e1]
    rw [allNullMask_congr (clampStage (dropDuplicates f₂).cols).1 _
      (normalizeStage_nullMask _)]
    rw [allNullMask_congr (dropDuplicates f₂).cols _ (clampStage_nullMask _)]
  rw [h5] at hb
  exact h3 b hb

lemma fillColumn_length (c : ColData) : (fillColumn c).1.length = c.length := by
  cases c with
  | num cs =>
    simp only [fillColumn]
    by_cases hn : 0 < (cs.filter (fun v => v.isNone)).length
    · rw [if_pos hn]
      cases hm : meanQ (cs.filterMap id) <;> simp [ColData.length]
    · rw [if_neg hn]
  | cat cs =>
    simp only [fillColumn]
    by_cases hn : 0 < (cs.filter (fun v => v.isNone)).length
    · rw [if_pos hn]
      cases hm : modeStr (cs.filterMap id) <;> simp [ColData.length]
    · rw [if_neg hn]

lemma clampNum_length (cs : List (Option ℚ)) : ((clampNum cs).1).length = cs.length := by
  rcases clampNum_shape cs with h | ⟨g, h⟩ <;> simp [h]

lemma normNum_length (cs : List (Option ℚ)) : ((normNum cs).1).length = cs.length := by
  rcases normNum_shape cs with h | ⟨g, h⟩ <;> simp [h]

lemma filterRows_length_congr (c d : ColData) (ks : List Bool) (h : c.length = d.length) :
    (c.filterRows ks).length = (d.filterRows ks).length := by
  cases c <;> cases d <;>
    simp only [ColData.filterRows, ColData.length] at h ⊢ <;>
    exact maskFilter_length_congr ks _ _ h

lemma wf_filterFrame (cols : List (String × ColData)) (ks : List Bool) (n : Nat)
    (h : ∀ c ∈ cols, c.2.length = n) :
    ∃ m, ∀ c ∈ cols.map (fun c => (c.1, c.2.filterRows ks)), c.2.length = m := by
  cases cols with
  | nil => exact ⟨0, by simp⟩
  | cons c₀ rest =>
    refine ⟨(c₀.2.filterRows ks).length, ?_⟩
    intro c hc
    obtain ⟨d, hd, hdc⟩ := List.mem_map.mp hc
    rw [← hdc]
    exact filterRows_length_congr d.2 c₀.2 ks
      (by rw [h d hd, h c₀ (List.mem_cons_self c₀ rest)])

lemma foldl_zipWith_length (n : Nat) : ∀ (ms : List (List Bool)) (m : List Bool),
    (∀ mk ∈ ms, mk.length = n) → m.length = n →
    (ms.foldl (fun acc mk => List.zipWith (fun a b => a && b) acc mk) m).length = n
  | [], m, _, hm => hm
  | mk :: ms, m, hms, hm => by
    simp only [List.foldl_cons]
    apply foldl_zipWith_length n ms _ (fun d hd => hms d (List.mem_cons_of_mem mk hd))
    rw [List.length_zipWith, hm, hms mk (List.mem_cons_self mk ms), min_self]

lemma allNullMask_length_of_wf (cols : List (String × ColData)) (n : Nat)
    (h : ∀ c ∈ cols, c.2.length = n) (hne : cols ≠ []) :
    (Frame.allNullMask ⟨cols⟩).length = n := by
  cases cols with
  | nil => exact absurd rfl hne
  | cons c rest =>
    simp only [Frame.allNullMask, List.map_cons]
    apply foldl_zipWith_length
    · intro mk hmk
      obtain ⟨d, hd, hdm⟩ := List.mem_map.mp hmk
      rw [← hdm, nullMask_length]
      exact h d (List.mem_cons_of_mem c hd)
    · rw [nullMask_length]
      exact h c (List.mem_cons_self c rest)

lemma dropnaAll_eq_self (f : Frame)
    (hfalse : ∀ b ∈ f.allNullMask, b = false)
    (hwf : ∃ n, ∀ c ∈ f.cols, c.2.length = n) :
    dropnaAll f = f := by
  obtain ⟨cols⟩ := f
  by_cases hnil : cols = []
  · subst hnil
    rfl
  · obtain ⟨n, hn⟩ := hwf
    have hlen : (Frame.allNullMask ⟨cols⟩).length = n :=
      allNullMask_length_of_wf cols n hn hnil
    have hkeep : ∀ b ∈ (Frame.allNullMask ⟨cols⟩).map (fun b => !b), b = true := by
      intro b hb
      obtain ⟨b0, hb0, hbb⟩ := List.mem_map.mp hb
      rw [← hbb, hfalse b0 hb0]
      rfl
    show Frame.mk (cols.map (fun c =>
      (c.1, c.2.filterRows ((Frame.allNullMask ⟨cols⟩).map (fun b => !b))))) = ⟨cols⟩
    congr 1
    have hid : ∀ c ∈ cols,
        (c.1, c.2.filterRows ((Frame.allNullMask ⟨cols⟩).map (fun b => !b))) = c := by
      intro c hcc
      have hfr : c.2.filterRows ((Frame.allNullMask ⟨cols⟩).map (fun b => !b)) = c.2 := by
        cases h2 : c.2 with
        | num cs =>
          simp only [ColData.filterRows]
          rw [maskFilter_all_true _ _ hkeep]
          have hl := hn c hcc
          rw [h2] at hl
          simp only [ColData.length] at hl
          rw [List.length_map, hlen, hl]
        | cat cs =>
          simp only [ColData.filterRows]
          rw [maskFilter_all_true _ _ hkeep]
          have hl := hn c hcc
          rw [h2] at hl
          simp only [ColData.length] at hl
          rw [List.length_map, hlen, hl]
      calc (c.1, c.2.filterRows ((Frame.allNullMask ⟨cols⟩).map (fun b => !b)))
          = (c.1, c.2) := by rw [hfr]
        _ = c := rfl
    calc cols.map (fun c =>
          (c.1, c.2.filterRows ((Frame.allNullMask ⟨cols⟩).map (fun b => !b))))
        = cols.map id := List.map_congr_left hid
      _ = cols := List.map_id cols

lemma clean_wf (f : Frame) (hwf : f.wf) :
    ∃ n, ∀ c ∈ (clean_data f).1.cols, c.2.length = n := by
  have h1 : ∀ c ∈ (fillStage f.cols).1, c.2.length = f.nrows := by
    intro c hc
    rw [fillStage_structure] at hc
    obtain ⟨d, hd, hdc⟩ := List.mem_map.mp hc
    rw [← hdc]
    show (fillColumn d.2).1.length = f.nrows
    rw [fillColumn_length]
    exact hwf d hd
  obtain ⟨n₂, h2⟩ := wf_filterFrame (fillStage f.cols).1
    ((Frame.allNullMask ⟨(fillStage f.cols).1⟩).map (fun b => !b)) f.nrows h1
  have h2b : ∀ c ∈ (dropnaAll ⟨(fillStage f.cols).1⟩).cols, c.2.length = n₂ := h2
  obtain ⟨n₃, h3⟩ := wf_filterFrame (dropnaAll ⟨(fillStage f.cols).1⟩).cols
    ((dupFlags (dropnaAll ⟨(fillStage f.cols).1⟩)).map (fun b => !b)) n₂ h2b
  have h3b : ∀ c ∈ (dropDuplicates (dropnaAll ⟨(fillStage f.cols).1⟩)).cols,
      c.2.length = n₃ := h3
  have h4 : ∀ c ∈ (clampStage (dropDuplicates (dropnaAll ⟨(fillStage f.cols).1⟩)).cols).1,
      c.2.length = n₃ := by
    intro c hc
    rw [clampStage_structure] at hc
    obtain ⟨d, hd, hdc⟩ := List.mem_map.mp hc
    rw [← hdc]
    obtain ⟨nm, cd⟩ := d
    cases cd with
    | num cs =>
      show (ColData.num (clampNum cs).1).length = n₃
      simp only [ColData.length]
      rw [clampNum_length]
      have := h3b _ hd
      simpa [ColData.length] using this
    | cat cs =>
      exact h3b _ hd
  refine ⟨n₃, ?_⟩
  intro c hc
  have hcols : (clean_data f).1.cols =
      (normalizeStage (clampStage (dropDuplicates (dropnaAll ⟨(fillStage f.cols).1⟩)).cols).1).1 := rfl
  rw [hcols, normalizeStage_structure] at hc
  obtain ⟨d, hd, hdc⟩ := List.mem_map.mp hc
  rw [← hdc]
  obtain ⟨nm, cd⟩ := d
  cases cd with
  | num cs =>
    show (ColData.num (normNum cs).1).length = n₃
    simp only [ColData.length]
    rw [normNum_length]
    have := h4 _ hd
    simpa [ColData.length] using this
  | cat cs =>
    exact h4 _ hd

/-!  Claim theorems. -/

/-- C1 (counterexample): on a concrete successful run the persisted
progress sequence is not monotonically non-decreasing: the engine's final
emission 100 is rescaled to 10 + 100 * 0.8 = 90 and persisted, after
which the orchestrator persists its fixed save-file anchor 85, a
regression. -/
theorem persisted_progress_regresses_after_engine :
    ¬ List.Chain' (· ≤ ·) (progressTrace (process_cleaning_job okInput).1) := by
  intro h
  have h₁ : chainLeB (progressTrace (process_cleaning_job okInput).1) = true :=
    (chainLeB_iff _).mpr h
  have h₂ : chainLeB (progressTrace (process_cleaning_job okInput).1) = false := by
    with_unfolding_all rfl
  rw [h₁] at h₂
  simp at h₂

/-- C1 (amended): on every successful run the persisted progress sequence
is the non-decreasing block 5, 10, followed by the engine values rescaled
by 10 + p * 0.8 (non-decreasing, ending at 90), followed by the
orchestrator anchors 85, 90, 100 (again non-decreasing); the single
regression is the save-file anchor 85 written right after the engine's
final rescaled value 90. -/
theorem persisted_progress_monotone_between_anchor_blocks (fi : FileInfo)
    (f : Frame) (so ro : Bool) (suf uid : String) :
    progressTrace (process_cleaning_job ⟨some fi, true, true, f, so, ro, suf, uid⟩).1
      = ([5, 10] ++ (clean_data f).2.2.map (fun p => 10 + p * 0.8)) ++ [85, 90, 100] ∧
    List.Chain' (· ≤ ·) ([5, 10] ++ (clean_data f).2.2.map (fun p => 10 + p * 0.8)) ∧
    ([5, 10] ++ (clean_data f).2.2.map (fun p => 10 + p * 0.8)).getLast? = some 90 ∧
    List.Chain' (· ≤ ·) ([(85 : ℚ), 90, 100]) := by
  refine ⟨orch_progress_trace_shape fi f so ro suf uid, ?_, ?_, by norm_num [List.chain'_cons]⟩
  · rw [map_adj_trace]
    exact orch_trace_chain _
  · rw [map_adj_trace]
    simp [List.getLast?_append, getLast?_cons_append]

/-- C2 (counterexample): for the job created and driven by the cleaning
endpoint the collapsed sequence of persisted states is
[en_progreso, completado], which is a prefix of neither
pendiente → en_progreso → completado nor pendiente → en_progreso →
fallido: create_pipeline_job records en_progreso, not pendiente, already
at creation. -/
theorem creation_state_not_pending :
    ¬ (List.isPrefixOf
          (List.destutter (· ≠ ·)
            (estadoTrace create_pipeline_job.estado (process_cleaning_job okInput).1))
          ["pendiente", "en_progreso", "completado"] = true ∨
       List.isPrefixOf
          (List.destutter (· ≠ ·)
            (estadoTrace create_pipeline_job.estado (process_cleaning_job okInput).1))
          ["pendiente", "en_progreso", "fallido"] = true) := by
  with_unfolding_all decide

/-- C2 (amended): the realtime service's create_job does initialize state
pendiente, but the creation path used by the cleaning endpoint
(create_pipeline_job) records en_progreso already at creation; on every
run the sequence of states written is en_progreso repeated followed by
exactly one terminal write (completado or fallido), so the state rank
never decreases and no terminal state is ever followed by another
write. -/
theorem job_state_writes_never_regress (inp : RunInput) :
    create_job.estado = "pendiente" ∧
    create_pipeline_job.estado = "en_progreso" ∧
    ∃ n t, isTerminal t = true ∧
      estadoTrace create_pipeline_job.estado (process_cleaning_job inp).1
        = List.replicate n ("en_progreso") ++ [t] ∧
      List.Chain' (fun a b => stateRank a ≤ stateRank b)
        (estadoTrace create_pipeline_job.estado (process_cleaning_job inp).1) := by
  refine ⟨rfl, rfl, ?_⟩
  obtain ⟨fio, le, lo, fr, so, ro, suf, uid⟩ := inp
  have key : ∃ n t, isTerminal t = true ∧
      estadoTrace create_pipeline_job.estado
        (process_cleaning_job ⟨fio, le, lo, fr, so, ro, suf, uid⟩).1
        = List.replicate n ("en_progreso") ++ [t] := by
    cases fio with
    | none => exact ⟨1, "fallido", rfl, rfl⟩
    | some fi =>
      cases le with
      | false => exact ⟨2, "fallido", rfl, rfl⟩
      | true =>
        cases lo with
        | false => exact ⟨2, "fallido", rfl, rfl⟩
        | true =>
          refine ⟨(clean_data fr).2.2.length + 2, "completado", rfl, ?_⟩
          simp only [estadoTrace, process_cleaning_job, List.filterMap_append,
            List.filterMap_map, save_cleaned_file, register_cleaned_data]
          cases so <;> cases ro <;>
            simp [estadoOf, filterMap_estado_engine, List.filterMap_cons,
              List.replicate_succ, create_pipeline_job]
  obtain ⟨n, t, ht, htr⟩ := key
  refine ⟨n, t, ht, htr, ?_⟩
  rw [htr]
  exact chain_rank_replicate_term n t ht

set_option maxRecDepth 10000 in
/-- C4: on the scenario dataset the null in the numeric column is filled
with the mean 340 of {10, 10, 1000}, the duplicate row (10, a) is removed
once so the row count drops from 4 to 3, and the report records
duplicates_removed = 1, nulls_removed = 0 and null_values_filled = 1. -/
theorem scenario_clean_report :
    (fillStage scenarioFrame.cols).1 =
      [("amount", ColData.num [some 10, some 340, some 10, some 1000]),
       ("category", ColData.cat [some "a", some "a", some "a", some "b"])] ∧
    (clean_data scenarioFrame).2.1.original_rows = 4 ∧
    (clean_data scenarioFrame).2.1.final_rows = 3 ∧
    (clean_data scenarioFrame).2.1.duplicates_removed = 1 ∧
    (clean_data scenarioFrame).2.1.nulls_removed = 0 ∧
    (clean_data scenarioFrame).2.1.null_values_filled = 1 := by
  with_unfolding_all decide

/-- C7: on every dataset the engine's progress emissions are exactly the
anchors 10, 25, then one 30 per column whose nulls were filled (the
second component of fillStage counts exactly the columns that filled),
then 40, 50, 60, 70, 80, 85, 95, 100; the sequence is non-decreasing and
ends at exactly 100, and 30 occurs exactly once per filling column. -/
theorem engine_progress_anchors (f : Frame) :
    (clean_data f).2.2 = [10, 25] ++ List.replicate (fillStage f.cols).2.2 (30 : ℚ)
        ++ [40, 50, 60, 70, 80, 85, 95, 100] ∧
    List.Chain' (· ≤ ·) (clean_data f).2.2 ∧
    ((clean_data f).2.2).getLast? = some 100 ∧
    ((clean_data f).2.2).count (30 : ℚ) = (fillStage f.cols).2.2 := by
  refine ⟨rfl, ?_, ?_, ?_⟩
  · rw [clean_data_trace]
    exact engine_trace_chain _
  · rw [clean_data_trace]
    simp [List.getLast?_append, getLast?_cons_append]
  · rw [clean_data_trace]
    simp [List.count_append, List.count_replicate, List.count_cons, beq_iff_eq]

/-- C8: the progress-sink operations wrap their persistence write in
try/except: each returns normally for every outcome of the write
(`Except.ok`, never an exception to the caller), with result True exactly
when the write succeeds and False when it fails. -/
theorem sink_ops_swallow_persistence_errors (dbOk : Bool) (p : ℚ)
    (msg err : String) (estado : Option String) :
    update_job dbOk p msg estado = Except.ok dbOk ∧
    update_job_progress dbOk p msg = Except.ok dbOk ∧
    complete_job dbOk msg = Except.ok dbOk ∧
    fail_job dbOk err = Except.ok dbOk := by
  cases dbOk <;>
    simp [update_job, update_job_progress, complete_job, fail_job, db_execute_update]

/-- C9 (counterexample): when the source-artifact lookup returns no
record the job does end failed without artifacts, but the stored message
is the Spanish Error: Archivo no encontrado, which does not contain the
substring not found. -/
theorem not_found_message_is_spanish :
    (process_cleaning_job missingFileInput).1
      = [Event.failJob ("Error: Archivo no encontrado")] ∧
    (estadoTrace create_pipeline_job.estado
        (process_cleaning_job missingFileInput).1).getLast? = some ("fallido") ∧
    msgContains ("Error: Archivo no encontrado") ("not found") = false := by
  refine ⟨rfl, rfl, ?_⟩
  decide

/-- C9 (amended): for every run whose source-artifact lookup returns no
record or whose local file does not exist, the job ends failed with a
stored message containing no encontrado (Spanish for not found), the run
returns an error payload instead of raising, and no cleaned artifact and
no cleaned-result record is written. -/
theorem source_not_found_fails_cleanly (inp : RunInput)
    (h : inp.file_info = none ∨ inp.local_exists = false) :
    ∃ msg, (process_cleaning_job inp).2 = RunRet.errorPayload msg ∧
      (process_cleaning_job inp).1.getLast? = some (Event.failJob (storedFailMessage msg)) ∧
      msgContains (storedFailMessage msg) ("no encontrado") = true ∧
      (estadoTrace create_pipeline_job.estado
          (process_cleaning_job inp).1).getLast? = some ("fallido") ∧
      artifactsWritten (process_cleaning_job inp).1 = [] ∧
      recordsInserted (process_cleaning_job inp).1 = [] := by
  obtain ⟨fio, le, lo, fr, so, ro, suf, uid⟩ := inp
  cases fio with
  | none =>
    refine ⟨"Archivo no encontrado", rfl, rfl, by decide, rfl, rfl, rfl⟩
  | some fi =>
    rcases h with h | h
    · exact absurd h (by simp)
    · simp only at h
      subst h
      refine ⟨"Archivo local no encontrado", rfl, rfl, by decide, rfl, rfl, rfl⟩

/-- C9 (witness): the amended theorem applied to the concrete run whose
lookup finds no record. -/
theorem source_not_found_fails_cleanly_witness :
    (missingFileInput.file_info = none ∨ missingFileInput.local_exists = false) ∧
    (∃ msg, (process_cleaning_job missingFileInput).2 = RunRet.errorPayload msg ∧
      (process_cleaning_job missingFileInput).1.getLast?
        = some (Event.failJob (storedFailMessage msg)) ∧
      msgContains (storedFailMessage msg) ("no encontrado") = true ∧
      (estadoTrace create_pipeline_job.estado
          (process_cleaning_job missingFileInput).1).getLast? = some ("fallido") ∧
      artifactsWritten (process_cleaning_job missingFileInput).1 = [] ∧
      recordsInserted (process_cleaning_job missingFileInput).1 = []) :=
  ⟨Or.inl rfl, source_not_found_fails_cleanly missingFileInput (Or.inl rfl)⟩

/-- C10: when both saving the cleaned dataset and registering the
cleaned-result record fail, the exceptions are caught inside
_save_cleaned_file and _register_cleaned_data, which return empty
strings, and the run still completes the job at progress 100 with the
empty cleaned-file name and cleaned id in its payload. -/
theorem artifact_persistence_failure_still_completes (fi : FileInfo) (f : Frame)
    (suffix uuid : String) :
    save_cleaned_file false fi.nombre_archivo suffix = ("", "") ∧
    register_cleaned_data false uuid = "" ∧
    (process_cleaning_job ⟨some fi, true, true, f, false, false, suffix, uuid⟩).1.getLast?
      = some (Event.completeJob "" "") ∧
    (process_cleaning_job ⟨some fi, true, true, f, false, false, suffix, uuid⟩).2
      = RunRet.success "" (clean_data f).2.1 "" ∧
    (progressTrace
        (process_cleaning_job ⟨some fi, true, true, f, false, false, suffix, uuid⟩).1).getLast?
      = some 100 ∧
    (estadoTrace create_pipeline_job.estado
        (process_cleaning_job ⟨some fi, true, true, f, false, false, suffix, uuid⟩).1).getLast?
      = some ("completado") := by
  refine ⟨rfl, rfl, ?_, rfl, ?_, ?_⟩ <;>
    simp [process_cleaning_job, save_cleaned_file, register_cleaned_data,
      progressTrace, estadoTrace, progressOf, estadoOf, List.filterMap_append,
      getLast?_cons_append]

/-- C5: for every numeric column, after the outlier-clamping body every
remaining (non-null) value lies within [Q1 - 1.5 IQR, Q3 + 1.5 IQR]
computed on the column's values before clamping, the column keeps its
row count (no row is deleted), and the clamping stage applies exactly
this per-column body to each numeric column. -/
theorem clamped_values_within_iqr_bounds (cs : List (Option ℚ)) (q1 q3 : ℚ)
    (h1 : quantileQ (cs.filterMap id) (1/4) = some q1)
    (h3 : quantileQ (cs.filterMap id) (3/4) = some q3) :
    (clampNum cs).1.length = cs.length ∧
    (∀ v ∈ (clampNum cs).1.filterMap id,
      q1 - 1.5 * (q3 - q1) ≤ v ∧ v ≤ q3 + 1.5 * (q3 - q1)) ∧
    (∀ cols : List (String × ColData),
      (clampStage cols).1 = cols.map (fun c =>
        match c.2 with
        | .num ds => (c.1, ColData.num (clampNum ds).1)
        | .cat ds => (c.1, ColData.cat ds))) := by
  have hq := quantileQ_q1_le_q3 _ _ _ h1 h3
  by_cases hoc : 0 < ((cs.filterMap id).filter
      (fun v => decide (v < q1 - 1.5 * (q3 - q1))
        || decide (q3 + 1.5 * (q3 - q1) < v))).length
  · have hval : (clampNum cs).1 = cs.map (Option.map (fun v =>
        let v₁ := if v < q1 - 1.5 * (q3 - q1) then q1 - 1.5 * (q3 - q1) else v
        if q3 + 1.5 * (q3 - q1) < v₁ then q3 + 1.5 * (q3 - q1) else v₁)) := by
      simp only [clampNum, h1, h3]
      rw [if_pos hoc]
    refine ⟨by rw [hval]; simp, ?_, clampStage_structure⟩
    intro v hv
    rw [hval, filterMap_id_map_optionMap] at hv
    obtain ⟨w, hw, hwv⟩ := List.mem_map.mp hv
    dsimp only at hwv
    split_ifs at hwv <;> rw [← hwv] <;> constructor <;> linarith
  · have hval : (clampNum cs).1 = cs := by
      simp only [clampNum, h1, h3]
      rw [if_neg hoc]
    refine ⟨by rw [hval], ?_, clampStage_structure⟩
    intro v hv
    rw [hval] at hv
    have hnil : ((cs.filterMap id).filter
        (fun v => decide (v < q1 - 1.5 * (q3 - q1))
          || decide (q3 + 1.5 * (q3 - q1) < v))) = [] :=
      List.length_eq_zero.mp (Nat.eq_zero_of_not_pos hoc)
    have hall := List.filter_eq_nil.mp hnil v hv
    simp only [Bool.or_eq_true, decide_eq_true_eq, not_or] at hall
    exact ⟨le_of_not_lt hall.1, le_of_not_lt hall.2⟩

/-- C5 (witness): the clamping theorem applied to the concrete column
[0, 0, 10, 1000], whose pre-clamp quartiles are Q1 = 0 and
Q3 = 257.5. -/
theorem clamped_values_within_iqr_bounds_witness :
    (quantileQ (([some 0, some 0, some 10, some 1000] : List (Option ℚ)).filterMap id) (1/4)
        = some 0 ∧
     quantileQ (([some 0, some 0, some 10, some 1000] : List (Option ℚ)).filterMap id) (3/4)
        = some (515/2)) ∧
    ((clampNum ([some 0, some 0, some 10, some 1000] : List (Option ℚ))).1.length
        = ([some 0, some 0, some 10, some 1000] : List (Option ℚ)).length ∧
     (∀ v ∈ (clampNum ([some 0, some 0, some 10, some 1000] : List (Option ℚ))).1.filterMap id,
       0 - 1.5 * (515/2 - 0) ≤ v ∧ v ≤ 515/2 + 1.5 * (515/2 - 0)) ∧
     (∀ cols : List (String × ColData),
       (clampStage cols).1 = cols.map (fun c =>
         match c.2 with
         | .num ds => (c.1, ColData.num (clampNum ds).1)
         | .cat ds => (c.1, ColData.cat ds)))) :=
  ⟨⟨by with_unfolding_all rfl, by with_unfolding_all rfl⟩,
   clamped_values_within_iqr_bounds ([some 0, some 0, some 10, some 1000]) 0 (515/2)
     (by with_unfolding_all rfl) (by with_unfolding_all rfl)⟩

/-- C6: a numeric column with positive standard deviation and max ≠ min
is rescaled by (v - min)/(max - min); afterwards its minimum is 0 and
its maximum is 1 and the column is flagged as normalized (the stage
records exactly the flagged numeric columns, in column order); a column
whose standard deviation is not positive is left untouched and not
flagged. -/
theorem normalized_column_spans_unit_interval (cs : List (Option ℚ)) (mn mx : ℚ)
    (hstd : stdPos (cs.filterMap id) = true)
    (hmn : listMin (cs.filterMap id) = some mn)
    (hmx : listMax (cs.filterMap id) = some mx)
    (hne : mx ≠ mn) :
    (normNum cs).2 = true ∧
    (normNum cs).1.length = cs.length ∧
    (normNum cs).1 = cs.map (Option.map (fun v => (v - mn) / (mx - mn))) ∧
    listMin ((normNum cs).1.filterMap id) = some 0 ∧
    listMax ((normNum cs).1.filterMap id) = some 1 ∧
    (∀ ds : List (Option ℚ), stdPos (ds.filterMap id) = false → normNum ds = (ds, false)) ∧
    (∀ cols : List (String × ColData),
      (normalizeStage cols).2 = cols.filterMap (fun c =>
        match c.2 with
        | .num ds => if (normNum ds).2 then some c.1 else none
        | .cat _ => none)) := by
  have hne_nil : cs.filterMap id ≠ [] := by
    intro h
    rw [h] at hmn
    simp [listMin] at hmn
  obtain ⟨mn0, heqn, hmem_mn, hle_mn⟩ := listMin_spec (cs.filterMap id) hne_nil
  rw [hmn, Option.some_inj] at heqn
  subst heqn
  obtain ⟨mx0, heqx, hmem_mx, hge_mx⟩ := listMax_spec (cs.filterMap id) hne_nil
  rw [hmx, Option.some_inj] at heqx
  subst heqx
  have hlt : mn < mx := lt_of_le_of_ne (hle_mn mx hmem_mx) (Ne.symm hne)
  have hd : (0 : ℚ) < mx - mn := sub_pos.mpr hlt
  have hout : normNum cs = (cs.map (Option.map (fun v => (v - mn) / (mx - mn))), true) := by
    rw [normNum]
    simp only [hstd, hmn, hmx, if_true]
    simp [hne]
  have hvals : ((normNum cs).1.filterMap id)
      = (cs.filterMap id).map (fun v => (v - mn) / (mx - mn)) := by
    rw [hout]
    exact filterMap_id_map_optionMap _ cs
  refine ⟨by rw [hout], by rw [hout]; simp, by rw [hout], ?_, ?_, ?_, normalizeStage_names⟩
  · rw [hvals]
    apply listMin_eq_of
    · refine List.mem_map.mpr ⟨mn, hmem_mn, ?_⟩
      simp
    · intro w hw
      obtain ⟨v, hv, hgv⟩ := List.mem_map.mp hw
      subst hgv
      exact div_nonneg (sub_nonneg.mpr (hle_mn v hv)) (le_of_lt hd)
  · rw [hvals]
    apply listMax_eq_of
    · refine List.mem_map.mpr ⟨mx, hmem_mx, ?_⟩
      exact div_self (ne_of_gt hd)
    · intro w hw
      obtain ⟨v, hv, hgv⟩ := List.mem_map.mp hw
      subst hgv
      rw [div_le_one hd]
      exact sub_le_sub_right (hge_mx v hv) mn
  · intro ds hds
    rw [normNum]
    simp [hds]

/-- C6 (witness): the normalization theorem applied to the concrete
column [0, 1]. -/
theorem normalized_column_spans_unit_interval_witness :
    (stdPos (([some 0, some 1] : List (Option ℚ)).filterMap id) = true ∧
     listMin (([some 0, some 1] : List (Option ℚ)).filterMap id) = some 0 ∧
     listMax (([some 0, some 1] : List (Option ℚ)).filterMap id) = some 1 ∧
     (1 : ℚ) ≠ 0) ∧
    ((normNum ([some 0, some 1] : List (Option ℚ))).2 = true ∧
     (normNum ([some 0, some 1] : List (Option ℚ))).1.length
       = ([some 0, some 1] : List (Option ℚ)).length ∧
     (normNum ([some 0, some 1] : List (Option ℚ))).1
       = ([some 0, some 1] : List (Option ℚ)).map (Option.map (fun v => (v - 0) / (1 - 0))) ∧
     listMin ((normNum ([some 0, some 1] : List (Option ℚ))).1.filterMap id) = some 0 ∧
     listMax ((normNum ([some 0, some 1] : List (Option ℚ))).1.filterMap id) = some 1 ∧
     (∀ ds : List (Option ℚ), stdPos (ds.filterMap id) = false → normNum ds = (ds, false)) ∧
     (∀ cols : List (String × ColData),
       (normalizeStage cols).2 = cols.filterMap (fun c =>
         match c.2 with
         | .num ds => if (normNum ds).2 then some c.1 else none
         | .cat _ => none))) :=
  ⟨⟨by with_unfolding_all rfl, by with_unfolding_all rfl, by with_unfolding_all rfl, by norm_num⟩,
   normalized_column_spans_unit_interval ([some 0, some 1]) 0 1
     (by with_unfolding_all rfl) (by with_unfolding_all rfl)
     (by with_unfolding_all rfl) (by norm_num)⟩


/-- C3 (counterexample): the cleaning pipeline is not idempotent: on the
dataset with amount column [0, 0, 1000, 10] (distinct tags), the first run
clamps 1000 to the IQR bound 643.75 and normalizes; the second run
recomputes the IQR bounds on the already-clamped data, clamps the maximum
again and renormalizes, so the twice-cleaned dataset differs from the
once-cleaned one. -/
theorem cleaning_not_idempotent :
    (clean_data ((clean_data skewedFrame).1)).1 ≠ (clean_data skewedFrame).1 := by
  with_unfolding_all decide

/-- C3 (amended): re-running the pipeline on its own output fills no nulls
and removes no fully-null rows (after a first run every column is entirely
null or null-free and no row is entirely null), even though re-computed
clamp bounds can move already-clamped values, so the cleaned dataset
itself need not be a fixed point. -/
theorem second_clean_fills_and_prunes_nothing (f : Frame) (hwf : f.wf) :
    (clean_data ((clean_data f).1)).2.1.null_values_filled = 0 ∧
    (clean_data ((clean_data f).1)).2.1.nulls_removed = 0 := by
  have hclean : ∀ c ∈ (clean_data f).1.cols, c.2.nullClean := clean_cols_nullClean f
  have hfill : fillStage (clean_data f).1.cols = ((clean_data f).1.cols, 0, 0) :=
    fillStage_of_nullClean _ hclean
  have hfalse : ∀ b ∈ (clean_data f).1.allNullMask, b = false := clean_allNullMask_false f
  have hwf₅ : ∃ n, ∀ c ∈ (clean_data f).1.cols, c.2.length = n := clean_wf f hwf
  have hdrop : dropnaAll (clean_data f).1 = (clean_data f).1 :=
    dropnaAll_eq_self _ hfalse hwf₅
  have hcols : (fillStage (clean_data f).1.cols).1 = (clean_data f).1.cols := by
    rw [hfill]
  constructor
  · show (fillStage (clean_data f).1.cols).2.1 = 0
    rw [hfill]
  · show (Frame.nrows ⟨(fillStage (clean_data f).1.cols).1⟩)
        - (dropnaAll ⟨(fillStage (clean_data f).1.cols).1⟩).nrows = 0
    rw [hcols]
    have hframe : (⟨(clean_data f).1.cols⟩ : Frame) = (clean_data f).1 := rfl
    rw [hframe, hdrop, Nat.sub_self]

/-- C3 (witness): the amended theorem applied to the concrete
non-idempotence dataset. -/
theorem second_clean_fills_and_prunes_nothing_witness :
    skewedFrame.wf ∧
    ((clean_data ((clean_data skewedFrame).1)).2.1.null_values_filled = 0 ∧
     (clean_data ((clean_data skewedFrame).1)).2.1.nulls_removed = 0) :=
  ⟨by intro c hc; fin_cases hc <;> rfl,
   second_clean_fills_and_prunes_nothing skewedFrame (by intro c hc; fin_cases hc <;> rfl)⟩


end Despliegue
